import Mathlib

/-!
# Verification of the dfrun Dockerfile interpreter (`src/main.rs`)

A shallow embedding of the interpreter's core: variable expansion
(`expand_vars`), the line classifier (the five regexes `run_re`, `add_re`,
`env_re`, `arg_re`, `workdir_re` hand-translated to parsing functions),
the multi-line RUN continuation state machine, ARG/ENV handling and the
working-directory tracking, together with theorems checking the
natural-language specification against this embedding.

Strings are modelled as `List Char`.  External effects (spawning bash,
curl, prompting, exporting an environment variable, creating the working
directory) are recorded in an effect trace; the success of an external
command is an oracle `execOk : Str → Str → Bool` taking the working
directory and the expanded command text.
-/

set_option maxRecDepth 4000

namespace Dfrun

/-- Strings, modelled as lists of characters. -/
abbrev Str := List Char

/-- ASCII whitespace, the fragment of the regex class `\s` (and of Rust's
`str::trim`) that can occur in a line read by `BufRead::lines` (non-ASCII
Unicode whitespace is not modelled). -/
def isWs (c : Char) : Bool :=
  c = ' ' || c = '\t' || c = '\n' || c = '\r' ||
  c = Char.ofNat 11 || c = Char.ofNat 12

/-- Rust `str::trim`: remove leading and trailing whitespace. -/
def trim (l : Str) : Str :=
  ((l.dropWhile isWs).reverse.dropWhile isWs).reverse

/-- Rust `str::replace pat rep`: replace every non-overlapping occurrence of
`pat` left to right.  The interpreter only ever calls this with patterns
starting with `'$'`, hence nonempty; an empty pattern is treated as
matching nowhere. -/
def replaceL (s pat rep : Str) : Str :=
  match s with
  | [] => []
  | c :: rest =>
    if h : pat ≠ [] ∧ pat.isPrefixOf (c :: rest) = true then
      rep ++ replaceL (List.drop pat.length (c :: rest)) pat rep
    else
      c :: replaceL rest pat rep
termination_by s.length
decreasing_by
  · simp only [List.length_drop]
    have : 1 ≤ pat.length := List.length_pos.mpr h.1
    simp only [List.length_cons]
    omega
  · simp only [List.length_cons]
    omega

/-- Does `pat` occur as a contiguous sublist of `s`? -/
def occursB (pat : Str) : Str → Bool
  | [] => pat.isPrefixOf []
  | c :: rest => pat.isPrefixOf (c :: rest) || occursB pat rest

/-- Insertion step of the stable sort of `expand_vars`: place `x` before the
first entry whose key is no longer than `x`'s (descending key length,
stable for the `foldr` below). -/
def insertByLen (x : Str × Str) : List (Str × Str) → List (Str × Str)
  | [] => [x]
  | y :: ys => if y.1.length ≤ x.1.length then x :: y :: ys else y :: insertByLen x ys

/-- `keys.sort_by(|a, b| b.len().cmp(&a.len()))` from `expand_vars`:
stable sort of the bindings by key length, longest first. -/
def sortByLenDesc (l : List (Str × Str)) : List (Str × Str) :=
  l.foldr insertByLen []

/-- `expand_vars` from `src/main.rs` lines 14-28: for each binding, longest
names first, literally replace `"$" ++ key` and then `"${" ++ key ++ "}"`
by the value.  The association list stands for the `HashMap` contents in
its (arbitrary) iteration order; keys are distinct in every state the
interpreter produces. -/
def expand_vars (s : Str) (varsMap : List (Str × Str)) : Str :=
  (sortByLenDesc varsMap).foldl
    (fun r kv =>
      replaceL (replaceL r ('$' :: kv.1) kv.2) ('$' :: '{' :: (kv.1 ++ ['}'])) kv.2)
    s

/-- `HashMap::insert`: overwrite the binding for `k` if present, else append. -/
def mapInsert (k v : Str) : List (Str × Str) → List (Str × Str)
  | [] => [(k, v)]
  | (k2, v2) :: rest =>
    if k2 = k then (k, v) :: rest else (k2, v2) :: mapInsert k v rest

/-- Map lookup (`HashMap::get` / `env::var`). -/
def varLookup (k : Str) : List (Str × Str) → Option Str
  | [] => none
  | (k2, v) :: rest => if k2 = k then some v else varLookup k rest

/-- The instruction keywords. -/
def runKw : Str := ['R', 'U', 'N']
def addKw : Str := ['A', 'D', 'D']
def envKw : Str := ['E', 'N', 'V']
def argKw : Str := ['A', 'R', 'G']
def workdirKw : Str := ['W', 'O', 'R', 'K', 'D', 'I', 'R']

/-- Shared shape `^KW\s+` of the five regexes: `kw` at the start of the
line followed by at least one whitespace character; returns the text
after the (maximal) whitespace run. -/
def afterKeyword (kw l : Str) : Option Str :=
  if kw.isPrefixOf l then
    match l.drop kw.length with
    | [] => none
    | c :: rest => if isWs c then some (rest.dropWhile isWs) else none
  else none

/-- `run_re = ^RUN\s+(.*)`: capture 1 is everything after the whitespace
run following `RUN`. -/
def runCapture (l : Str) : Option Str :=
  afterKeyword runKw l

/-- `workdir_re = ^WORKDIR\s+(.+)`: like `RUN` but the capture must be
nonempty. -/
def workdirCapture (l : Str) : Option Str :=
  match afterKeyword workdirKw l with
  | none => none
  | some r => if r = [] then none else some r

/-- `env_re = ^ENV\s+(\S+)\s+(.+)`: capture 1 is a maximal nonempty run of
non-whitespace, which must be followed by at least one whitespace
character and then at least one further character (capture 2 starts after
the maximal whitespace run; lines are trimmed, so the remainder is then
nonempty exactly when anything follows the whitespace). -/
def envCapture (l : Str) : Option (Str × Str) :=
  match afterKeyword envKw l with
  | none => none
  | some r =>
    let key := r.takeWhile (fun c => !(isWs c))
    let r2 := r.dropWhile (fun c => !(isWs c))
    match r2 with
    | [] => none
    | _ :: _ =>
      let value := r2.dropWhile isWs
      if key = [] then none else if value = [] then none else some (key, value)

/-- Characters allowed in an ARG name: the class `[^=\s]`. -/
def argNameChar (c : Char) : Bool := !(isWs c) && c != '='

/-- `arg_re = ^ARG\s+([^=\s]+)(?:\s*=\s*(.+))?`: capture 1 is a maximal
nonempty run of `[^=\s]`; the optional group matches whitespace, `'='`,
whitespace and a nonempty default (on a trimmed line); if it cannot match
it is skipped and capture 2 is absent. -/
def argCapture (l : Str) : Option (Str × Option Str) :=
  match afterKeyword argKw l with
  | none => none
  | some r =>
    let key := r.takeWhile argNameChar
    if key = [] then none
    else
      let r2 := r.dropWhile argNameChar
      match r2.dropWhile isWs with
      | '=' :: r4 =>
        let v := r4.dropWhile isWs
        if v = [] then some (key, none) else some (key, some v)
      | _ => some (key, none)

/-- `add_re = ^ADD\s+(https?://\S+)\s+.*`: capture 1 is the URL scheme
followed by a maximal nonempty run of non-whitespace, which must be
followed by at least one whitespace character. -/
def addCapture (l : Str) : Option Str :=
  match afterKeyword addKw l with
  | none => none
  | some r =>
    let tryScheme : Str → Option Str := fun scheme =>
      if scheme.isPrefixOf r then
        let r2 := r.drop scheme.length
        let urlRest := r2.takeWhile (fun c => !(isWs c))
        let after := r2.dropWhile (fun c => !(isWs c))
        if urlRest = [] then none
        else match after with
          | [] => none
          | _ :: _ => some (scheme ++ urlRest)
      else none
    match tryScheme "https://".toList with
    | some u => some u
    | none => tryScheme "http://".toList

/-- `line.ends_with("\\")`. -/
def endsWithBS (l : Str) : Bool :=
  match l.reverse with
  | c :: _ => c = '\\'
  | [] => false

/-- `line.strip_suffix("\\")`, applied where the suffix is present: drop
the single trailing backslash. -/
def stripBS (l : Str) : Str :=
  if endsWithBS l then l.dropLast else l

/-- `PathBuf::is_absolute` on Unix: the path starts with `/`. -/
def isAbsolutePath (p : Str) : Bool :=
  match p with
  | '/' :: _ => true
  | _ => false

/-- `PathBuf::join` for the relative case: parent, separator, child
(`dockerfile_dir` is canonicalized so it has no trailing separator). -/
def pathJoin (a b : Str) : Str := a ++ '/' :: b

/-- Interpreter state: the Variable Store `vars_map`, the process
environment (read by `env::var`, written by `env::set_var`), the pending
multi-line `run_command` buffer with its `in_run_block` flag, the tracked
`workdir`, and the remaining stdin lines for ARG prompts (an exhausted
stdin models non-interactive end-of-input: `read_line` yields the empty
string). -/
structure InterpState where
  vars : List (Str × Str)
  env : List (Str × Str)
  runCommand : Str
  inRunBlock : Bool
  workdir : Str
  stdin : List Str
deriving Repr, DecidableEq

/-- Externally visible effects of one interpreter step. `exec cwd cmd` is
`bash -c cmd` run with current directory `cwd` (the code saves the current
directory, changes to `workdir`, spawns, and restores). `ensureDir p`
is `create_dir_all(p)` when `p` is absent, followed by changing into it.
`promptArg k` is the `Enter value for ARG k...` prompt plus the
`read_line`.  `exportVar k v` is `env::set_var(k, v)`. -/
inductive Effect where
  | exec (cwd cmd : Str)
  | fetch (cwd url : Str)
  | ensureDir (path : Str)
  | promptArg (name : Str)
  | exportVar (name value : Str)
deriving Repr, DecidableEq

/-- Result of processing one line: continue with a new state, or stop the
whole process with exit code 1 (`std::process::exit(1)`). -/
inductive StepResult where
  | next (s : InterpState) (effs : List Effect)
  | fatalStop (s : InterpState) (effs : List Effect)
deriving Repr, DecidableEq

/-- Exit of the whole run. -/
inductive ExitResult where
  | ok
  | fatalExit (code : Nat)
deriving Repr, DecidableEq

/-- `io::stdin().read_line`: the next stdin line, or the empty string at
end of input (non-interactive runs). -/
def readStdin (s : InterpState) : Str × InterpState :=
  match s.stdin with
  | [] => ([], s)
  | i :: rest => (i, { s with stdin := rest })

/-- One iteration of the `for line in reader.lines()` loop of `main`
(`src/main.rs` lines 116-411): trim the line; if a RUN continuation is
open, feed it to the continuation logic; otherwise try, in the code's
order, `env_re`, `workdir_re`, `run_re`, `add_re`, `arg_re`; anything else
(comments, blanks, unsupported instructions) is ignored. -/
def stepLine (execOk : Str → Str → Bool) (dfDir : Str) (s : InterpState)
    (rawLine : Str) : StepResult :=
  let line := trim rawLine
  if s.inRunBlock then
    if endsWithBS line then
      .next { s with runCommand := s.runCommand ++ stripBS line ++ [' '] } []
    else
      let full := s.runCommand ++ line
      let expanded := expand_vars full s.vars
      if execOk s.workdir expanded then
        .next { s with runCommand := [], inRunBlock := false } [.exec s.workdir expanded]
      else
        .fatalStop { s with runCommand := full } [.exec s.workdir expanded]
  else
    match envCapture line with
    | some (key, value) =>
      let ev := expand_vars value s.vars
      .next { s with vars := mapInsert key ev s.vars, env := mapInsert key ev s.env }
        [.exportVar key ev]
    | none =>
    match workdirCapture line with
    | some dir =>
      let ed := expand_vars dir s.vars
      let wd := if isAbsolutePath ed then ed else pathJoin dfDir ed
      .next { s with workdir := wd } [.ensureDir wd]
    | none =>
    match runCapture line with
    | some command =>
      if endsWithBS command then
        .next { s with runCommand := s.runCommand ++ stripBS command ++ [' '],
                       inRunBlock := true } []
      else
        let expanded := expand_vars command s.vars
        if execOk s.workdir expanded then
          .next s [.exec s.workdir expanded]
        else
          .fatalStop s [.exec s.workdir expanded]
    | none =>
    match addCapture line with
    | some url => .next s [.fetch s.workdir url]
    | none =>
    match argCapture line with
    | some (key, some dflt) =>
      let p := readStdin s
      let inp := trim p.1
      let v := if inp = [] then dflt else inp
      .next { p.2 with vars := mapInsert key v p.2.vars } [.promptArg key]
    | some (key, none) =>
      let envValue := varLookup key s.env
      let p := readStdin s
      let inp := trim p.1
      if inp = [] then
        match envValue with
        | some ev => .next { p.2 with vars := mapInsert key ev p.2.vars } [.promptArg key]
        | none => .fatalStop p.2 [.promptArg key]
      else
        .next { p.2 with vars := mapInsert key inp p.2.vars } [.promptArg key]
    | none => .next s []

/-- The effect trace of a step result. -/
def stepEffects : StepResult → List Effect
  | .next _ e => e
  | .fatalStop _ e => e

/-- The whole interpreter loop: process the lines in order, accumulating
effects; a fatal step ends the process with exit code 1, exhausting the
input ends it with success (the loop simply finishes, whatever state the
continuation machinery is in). -/
def runScript (execOk : Str → Str → Bool) (dfDir : Str) :
    List Str → InterpState → List Effect → ExitResult × InterpState × List Effect
  | [], s, effs => (.ok, s, effs)
  | l :: rest, s, effs =>
    match stepLine execOk dfDir s l with
    | .next s2 e => runScript execOk dfDir rest s2 (effs ++ e)
    | .fatalStop s2 e => (.fatalExit 1, s2, effs ++ e)

/-- The state at the top of `main`'s loop: empty Variable Store and
buffer, tracked directory = the Dockerfile's directory, with the given
inherited process environment and stdin. -/
def initState (dfDir : Str) (inheritedEnv : List (Str × Str)) (stdinLines : List Str) :
    InterpState :=
  { vars := [], env := inheritedEnv, runCommand := [], inRunBlock := false,
    workdir := dfDir, stdin := stdinLines }

/-! ## Lemmas about `replaceL`, `occursB` and `expand_vars` -/

theorem replaceL_nil (pat rep : Str) : replaceL [] pat rep = [] := by
  rw [replaceL]

/-- Replacing a nonempty pattern inside itself yields the replacement. -/
theorem replaceL_self (pat rep : Str) (h : pat ≠ []) : replaceL pat pat rep = rep := by
  match pat, h with
  | c :: rest, _ =>
    rw [replaceL, dif_pos ⟨by simp, by simp⟩]
    rw [List.drop_length, replaceL_nil, List.append_nil]

/-- If the pattern occurs nowhere in `s`, replacement leaves `s` unchanged. -/
theorem replaceL_of_occursB_eq_false (s pat rep : Str) (h : occursB pat s = false) :
    replaceL s pat rep = s := by
  induction s with
  | nil => exact replaceL_nil pat rep
  | cons c rest ih =>
    rw [occursB, Bool.or_eq_false_iff] at h
    rw [replaceL, dif_neg (by simp [h.1]), ih h.2]

/-- A pattern starting with `'$'` does not occur in a `'$'`-free string. -/
theorem occursB_dollar_eq_false (p s : Str) (h : '$' ∉ s) :
    occursB ('$' :: p) s = false := by
  induction s with
  | nil => rfl
  | cons c rest ih =>
    have hc : ('$' == c) = false := by
      simp only [beq_eq_false_iff_ne, ne_eq]
      intro hcc
      exact h (hcc ▸ List.mem_cons_self c rest)
    rw [occursB, List.isPrefixOf, hc, Bool.false_and, Bool.false_or]
    exact ih fun hm => h (List.mem_cons_of_mem c hm)

/-- Corollary: replacing a `'$'`-led pattern in a `'$'`-free string is the
identity. -/
theorem replaceL_dollar_of_not_mem (s p rep : Str) (h : '$' ∉ s) :
    replaceL s ('$' :: p) rep = s :=
  replaceL_of_occursB_eq_false s _ rep (occursB_dollar_eq_false p s h)

/-- Expansion never touches text with no `'$'` character, whatever the
store holds. -/
theorem expand_vars_no_dollar (store : List (Str × Str)) (s : Str) (h : '$' ∉ s) :
    expand_vars s store = s := by
  unfold expand_vars
  generalize sortByLenDesc store = l
  induction l generalizing s with
  | nil => rfl
  | cons kv rest ih =>
    rw [List.foldl_cons, replaceL_dollar_of_not_mem s kv.1 kv.2 h,
      replaceL_dollar_of_not_mem s _ kv.2 h]
    exact ih s h

/-- Expansion over the empty store is the identity. -/
theorem expand_vars_nil (s : Str) : expand_vars s [] = s := rfl

/-- Under a single binding whose value holds no `'$'`, the reference
`$NAME` expands to the value. -/
theorem expand_vars_single_dollar (k v : Str) (hvd : '$' ∉ v) :
    expand_vars ('$' :: k) [(k, v)] = v := by
  show replaceL (replaceL ('$' :: k) ('$' :: k) v) ('$' :: '{' :: (k ++ ['}'])) v = v
  rw [replaceL_self _ v (by simp), replaceL_dollar_of_not_mem v _ v hvd]

/-- Under the same conditions, the reference `${NAME}` expands to the
value. -/
theorem expand_vars_single_brace (k v : Str) (hk : k ≠ []) (hkd : '$' ∉ k)
    (hkb : '{' ∉ k) (hvd : '$' ∉ v) :
    expand_vars ('$' :: '{' :: (k ++ ['}'])) [(k, v)] = v := by
  show replaceL (replaceL ('$' :: '{' :: (k ++ ['}'])) ('$' :: k) v)
      ('$' :: '{' :: (k ++ ['}'])) v = v
  have hocc : occursB ('$' :: k) ('$' :: '{' :: (k ++ ['}'])) = false := by
    rw [occursB]
    have h1 : ('$' :: k).isPrefixOf ('$' :: '{' :: (k ++ ['}'])) = false := by
      match k, hk with
      | k0 :: krest, _ =>
        have : (k0 == '{') = false := by
          simp only [beq_eq_false_iff_ne, ne_eq]
          intro hc
          exact hkb (hc ▸ List.mem_cons_self k0 krest)
        simp [List.isPrefixOf, this]
    have h2 : occursB ('$' :: k) ('{' :: (k ++ ['}'])) = false := by
      apply occursB_dollar_eq_false
      simp only [List.mem_cons, List.mem_append, List.mem_singleton]
      push_neg
      refine ⟨by decide, fun hm => ?_, by decide⟩
      exact absurd hm hkd
    rw [h1, h2, Bool.or_self]
  rw [replaceL_of_occursB_eq_false _ _ _ hocc, replaceL_self _ v (by simp)]

/-! ## Lemmas about `trim`, whitespace and the captures -/

theorem trim_eq_self (l : Str) (h1 : l.dropWhile isWs = l)
    (h2 : l.reverse.dropWhile isWs = l.reverse) : trim l = l := by
  rw [trim, h1, h2, List.reverse_reverse]

/-- A nonempty chunk with no trailing whitespace keeps any prefix intact
under right trimming. -/
theorem rev_dropWhile_append (l t : Str) (ht : t ≠ [])
    (htr : t.reverse.dropWhile isWs = t.reverse) :
    (l ++ t).reverse.dropWhile isWs = (l ++ t).reverse := by
  rw [List.reverse_append]
  match ht2 : t.reverse, ht with
  | c :: rest, _ =>
    rw [ht2] at htr
    have hc : isWs c = false := by
      by_contra hcc
      rw [List.dropWhile_cons_of_pos (by simpa using hcc)] at htr
      have h1 := congrArg List.length htr
      have h2 := (List.dropWhile_sublist (l := rest) isWs).length_le
      simp only [List.length_cons] at h1
      omega
    rw [List.cons_append, List.dropWhile_cons_of_neg (by simp [hc])]
  | [], _ => simp at ht2; exact absurd ht2 ht

/-- All-false predicate: `dropWhile` is the identity. -/
theorem dropWhile_of_all_neg {p : Char → Bool} (l : Str) (h : ∀ c ∈ l, p c = false) :
    l.dropWhile p = l := by
  match l with
  | [] => rfl
  | c :: rest =>
    rw [List.dropWhile_cons_of_neg (by simp [h c (List.mem_cons_self c rest)])]

theorem afterKeyword_cons_space (kw body : Str) :
    afterKeyword kw (kw ++ ' ' :: body) = some (body.dropWhile isWs) := by
  rw [afterKeyword, if_pos (by simp), List.drop_left]
  simp [isWs]

theorem afterKeyword_none (kw l : Str) (h : kw.isPrefixOf l = false) :
    afterKeyword kw l = none := by
  rw [afterKeyword, if_neg (by simp [h])]

/-- A chunk of non-whitespace characters keeps `dropWhile isWs` trivial. -/
theorem dropWhile_isWs_append (k : Str) (m : Str) (hk : k ≠ [])
    (hkc : ∀ c ∈ k, isWs c = false) :
    (k ++ m).dropWhile isWs = k ++ m := by
  match k, hk with
  | c :: krest, _ =>
    rw [List.cons_append,
      List.dropWhile_cons_of_neg (by simp [hkc c (List.mem_cons_self c krest)])]

/-- `env_re` on a well-formed space-separated ENV line. -/
theorem envCapture_line (k v : Str) (hk : k ≠ []) (hkc : ∀ c ∈ k, isWs c = false)
    (hv : v ≠ []) (hvh : v.dropWhile isWs = v) :
    envCapture (envKw ++ ' ' :: (k ++ ' ' :: v)) = some (k, v) := by
  rw [envCapture, afterKeyword_cons_space,
    dropWhile_isWs_append k (' ' :: v) hk hkc]
  have htake : (k ++ ' ' :: v).takeWhile (fun c => !(isWs c)) = k := by
    rw [List.takeWhile_append_of_pos (by intro a ha; simp [hkc a ha]),
      List.takeWhile_cons_of_neg (by simp [isWs]), List.append_nil]
  have hdrop : (k ++ ' ' :: v).dropWhile (fun c => !(isWs c)) = ' ' :: v := by
    rw [List.dropWhile_append_of_pos (by intro a ha; simp [hkc a ha]),
      List.dropWhile_cons_of_neg (by simp [isWs])]
  simp only [htake, hdrop, List.dropWhile_cons_of_pos (by simp [isWs] : isWs ' ' = true),
    hvh]
  rw [if_neg (by simp [hk]), if_neg (by simp [hv])]

/-- `arg_re` on `ARG <name>=<default>`. -/
theorem argCapture_default (k d : Str) (hk : k ≠ [])
    (hkc : ∀ c ∈ k, argNameChar c = true)
    (hd : d ≠ []) (hdh : d.dropWhile isWs = d) :
    argCapture (argKw ++ ' ' :: (k ++ '=' :: d)) = some (k, some d) := by
  rw [argCapture, afterKeyword_cons_space,
    dropWhile_isWs_append k ('=' :: d) hk
      (fun c hc => by have := hkc c hc; revert this; simp [argNameChar]; tauto)]
  have htake : (k ++ '=' :: d).takeWhile argNameChar = k := by
    rw [List.takeWhile_append_of_pos hkc,
      List.takeWhile_cons_of_neg (by simp [argNameChar]), List.append_nil]
  have hdrop : (k ++ '=' :: d).dropWhile argNameChar = '=' :: d := by
    rw [List.dropWhile_append_of_pos hkc,
      List.dropWhile_cons_of_neg (by simp [argNameChar])]
  simp only [htake, hdrop, List.dropWhile_cons_of_neg (by simp [isWs] : ¬ isWs '=' = true)]
  rw [if_neg (by simp [hk])]
  simp only [hdh]
  rw [if_neg (by simp [hd])]

/-- `arg_re` on `ARG <name>` (no default). -/
theorem argCapture_no_default (k : Str) (hk : k ≠ [])
    (hkc : ∀ c ∈ k, argNameChar c = true) :
    argCapture (argKw ++ ' ' :: k) = some (k, none) := by
  rw [argCapture, afterKeyword_cons_space,
    dropWhile_of_all_neg k
      (fun c hc => by have := hkc c hc; revert this; simp [argNameChar]; tauto)]
  have htake : k.takeWhile argNameChar = k := List.takeWhile_eq_self_iff.mpr hkc
  have hdrop : k.dropWhile argNameChar = [] := by
    have hsum := List.takeWhile_append_dropWhile argNameChar k
    rw [htake] at hsum
    have h2 : k ++ k.dropWhile argNameChar = k ++ [] := by
      rw [hsum, List.append_nil]
    exact List.append_cancel_left h2
  simp [htake, hdrop, hk]

/-- `run_re` on a RUN line. -/
theorem runCapture_line (c : Str) (hch : c.dropWhile isWs = c) :
    runCapture (runKw ++ ' ' :: c) = some c := by
  rw [runCapture, afterKeyword_cons_space, hch]

/-- `workdir_re` on a WORKDIR line. -/
theorem workdirCapture_line (p : Str) (hp : p ≠ []) (hph : p.dropWhile isWs = p) :
    workdirCapture (workdirKw ++ ' ' :: p) = some p := by
  rw [workdirCapture, afterKeyword_cons_space, hph]
  simp [hp]

/-! ### The captures that do not fire on a given line head -/

theorem envCapture_none_of_head (c : Char) (l : Str) (h : ('E' == c) = false) :
    envCapture (c :: l) = none := by
  have h2 : afterKeyword envKw (c :: l) = none :=
    afterKeyword_none _ _ (by simp [envKw, List.isPrefixOf, h])
  rw [envCapture, h2]

theorem workdirCapture_none_of_head (c : Char) (l : Str) (h : ('W' == c) = false) :
    workdirCapture (c :: l) = none := by
  have h2 : afterKeyword workdirKw (c :: l) = none :=
    afterKeyword_none _ _ (by simp [workdirKw, List.isPrefixOf, h])
  rw [workdirCapture, h2]

theorem runCapture_none_of_head (c : Char) (l : Str) (h : ('R' == c) = false) :
    runCapture (c :: l) = none := by
  have h2 : afterKeyword runKw (c :: l) = none :=
    afterKeyword_none _ _ (by simp [runKw, List.isPrefixOf, h])
  rw [runCapture, h2]

theorem addCapture_none_of_head (c : Char) (l : Str) (h : ('A' == c) = false) :
    addCapture (c :: l) = none := by
  have h2 : afterKeyword addKw (c :: l) = none :=
    afterKeyword_none _ _ (by simp [addKw, List.isPrefixOf, h])
  rw [addCapture, h2]

/-- `add_re` does not fire on a line starting `AR…` (such as ARG lines). -/
theorem addCapture_none_AR (l : Str) : addCapture ('A' :: 'R' :: l) = none := by
  have h2 : afterKeyword addKw ('A' :: 'R' :: l) = none :=
    afterKeyword_none _ _
      (by simp [addKw, List.isPrefixOf, (by decide : ('D' == 'R') = false)])
  rw [addCapture, h2]

/-- The head of a string unchanged by `dropWhile isWs` is not whitespace. -/
theorem head_not_ws_of_dropWhile_eq {c : Char} {l : Str}
    (h : (c :: l).dropWhile isWs = c :: l) : isWs c = false := by
  by_contra hcc
  rw [List.dropWhile_cons_of_pos (by simpa using hcc)] at h
  have h1 := congrArg List.length h
  have h2 := (List.dropWhile_sublist (l := l) isWs).length_le
  simp only [List.length_cons] at h1
  omega

/-- A chunk with a non-whitespace head keeps `dropWhile isWs` trivial after
appending. -/
theorem dropWhile_isWs_append_head (k m : Str) (hk : k ≠ [])
    (hkh : k.dropWhile isWs = k) : (k ++ m).dropWhile isWs = k ++ m := by
  match k, hk with
  | c :: krest, _ =>
    rw [List.cons_append,
      List.dropWhile_cons_of_neg (by simp [head_not_ws_of_dropWhile_eq hkh])]

theorem endsWithBS_concat (c : Str) : endsWithBS (c ++ ['\\']) = true := by
  rw [endsWithBS, List.reverse_append]
  simp

theorem stripBS_concat (c : Str) : stripBS (c ++ ['\\']) = c := by
  rw [stripBS, if_pos (endsWithBS_concat c), List.dropLast_concat]

/-! ### Characterization of `stepLine` on each instruction shape -/

/-- ENV with the whitespace-separated form `ENV KEY VALUE`: the value is
expanded against the current store and the binding is put both in the
store and in the process environment (`env::set_var`). -/
theorem stepLine_env (execOk : Str → Str → Bool) (dfDir : Str) (s : InterpState)
    (k v : Str) (hblock : s.inRunBlock = false)
    (hk : k ≠ []) (hkc : ∀ c ∈ k, isWs c = false)
    (hv : v ≠ []) (hvh : v.dropWhile isWs = v)
    (hvt : v.reverse.dropWhile isWs = v.reverse) :
    stepLine execOk dfDir s (envKw ++ ' ' :: (k ++ ' ' :: v)) =
      .next { s with vars := mapInsert k (expand_vars v s.vars) s.vars,
                     env := mapInsert k (expand_vars v s.vars) s.env }
        [.exportVar k (expand_vars v s.vars)] := by
  have htrim : trim (envKw ++ ' ' :: (k ++ ' ' :: v)) = envKw ++ ' ' :: (k ++ ' ' :: v) := by
    apply trim_eq_self
    · exact dropWhile_isWs_append_head envKw _ (by simp [envKw])
        (by rw [envKw, List.dropWhile_cons_of_neg (by simp [isWs])])
    · have hshape : envKw ++ ' ' :: (k ++ ' ' :: v) = (envKw ++ ' ' :: k ++ [' ']) ++ v := by
        simp
      rw [hshape]
      exact rev_dropWhile_append _ v hv hvt
  simp only [stepLine, htrim, hblock, Bool.false_eq_true, if_false,
    envCapture_line k v hk hkc hv hvh]

/-- ARG with a default and an exhausted stdin (`read_line` yields the
empty string): the prompt is printed, and the literal default is stored in
the Variable Store only. -/
theorem stepLine_arg_default_eof (execOk : Str → Str → Bool) (dfDir : Str)
    (s : InterpState) (k d : Str) (hblock : s.inRunBlock = false)
    (hstdin : s.stdin = [])
    (hk : k ≠ []) (hkc : ∀ c ∈ k, argNameChar c = true)
    (hd : d ≠ []) (hdh : d.dropWhile isWs = d)
    (hdt : d.reverse.dropWhile isWs = d.reverse) :
    stepLine execOk dfDir s (argKw ++ ' ' :: (k ++ '=' :: d)) =
      .next { s with vars := mapInsert k d s.vars } [.promptArg k] := by
  have htrim : trim (argKw ++ ' ' :: (k ++ '=' :: d)) = argKw ++ ' ' :: (k ++ '=' :: d) := by
    apply trim_eq_self
    · exact dropWhile_isWs_append_head argKw _ (by simp [argKw])
        (by rw [argKw, List.dropWhile_cons_of_neg (by simp [isWs])])
    · have hshape : argKw ++ ' ' :: (k ++ '=' :: d) = (argKw ++ ' ' :: k ++ ['=']) ++ d := by
        simp
      rw [hshape]
      exact rev_dropWhile_append _ d hd hdt
  have hline : argKw ++ ' ' :: (k ++ '=' :: d) =
      'A' :: 'R' :: 'G' :: ' ' :: (k ++ '=' :: d) := rfl
  rw [hline] at htrim ⊢
  simp only [stepLine, htrim, hblock, Bool.false_eq_true, if_false,
    envCapture_none_of_head 'A' _ (by decide),
    workdirCapture_none_of_head 'A' _ (by decide),
    runCapture_none_of_head 'A' _ (by decide),
    addCapture_none_AR,
    hline ▸ argCapture_default k d hk hkc hd hdh,
    readStdin, hstdin]
  simp [trim]

/-- ARG with a default and a nonblank first stdin line: the trimmed
response is stored in the Variable Store only. -/
theorem stepLine_arg_default_input (execOk : Str → Str → Bool) (dfDir : Str)
    (s : InterpState) (k d i : Str) (tl : List Str) (hblock : s.inRunBlock = false)
    (hstdin : s.stdin = i :: tl) (hi : trim i ≠ [])
    (hk : k ≠ []) (hkc : ∀ c ∈ k, argNameChar c = true)
    (hd : d ≠ []) (hdh : d.dropWhile isWs = d)
    (hdt : d.reverse.dropWhile isWs = d.reverse) :
    stepLine execOk dfDir s (argKw ++ ' ' :: (k ++ '=' :: d)) =
      .next { s with stdin := tl, vars := mapInsert k (trim i) s.vars }
        [.promptArg k] := by
  have htrim : trim (argKw ++ ' ' :: (k ++ '=' :: d)) = argKw ++ ' ' :: (k ++ '=' :: d) := by
    apply trim_eq_self
    · exact dropWhile_isWs_append_head argKw _ (by simp [argKw])
        (by rw [argKw, List.dropWhile_cons_of_neg (by simp [isWs])])
    · have hshape : argKw ++ ' ' :: (k ++ '=' :: d) = (argKw ++ ' ' :: k ++ ['=']) ++ d := by
        simp
      rw [hshape]
      exact rev_dropWhile_append _ d hd hdt
  have hline : argKw ++ ' ' :: (k ++ '=' :: d) =
      'A' :: 'R' :: 'G' :: ' ' :: (k ++ '=' :: d) := rfl
  rw [hline] at htrim ⊢
  simp only [stepLine, htrim, hblock, Bool.false_eq_true, if_false,
    envCapture_none_of_head 'A' _ (by decide),
    workdirCapture_none_of_head 'A' _ (by decide),
    runCapture_none_of_head 'A' _ (by decide),
    addCapture_none_AR,
    hline ▸ argCapture_default k d hk hkc hd hdh,
    readStdin, hstdin]
  simp [hi]

/-- ARG without a default, exhausted stdin, and a process-environment
binding for the name: the environment value is stored in the Variable
Store only. -/
theorem stepLine_arg_no_default_env (execOk : Str → Str → Bool) (dfDir : Str)
    (s : InterpState) (k ev : Str) (hblock : s.inRunBlock = false)
    (hstdin : s.stdin = []) (henv : varLookup k s.env = some ev)
    (hk : k ≠ []) (hkc : ∀ c ∈ k, argNameChar c = true) :
    stepLine execOk dfDir s (argKw ++ ' ' :: k) =
      .next { s with vars := mapInsert k ev s.vars } [.promptArg k] := by
  have hknw : ∀ c ∈ k, isWs c = false := by
    intro c hc
    have := hkc c hc
    revert this
    simp [argNameChar]
    tauto
  have htrim : trim (argKw ++ ' ' :: k) = argKw ++ ' ' :: k := by
    apply trim_eq_self
    · exact dropWhile_isWs_append_head argKw _ (by simp [argKw])
        (by rw [argKw, List.dropWhile_cons_of_neg (by simp [isWs])])
    · have hshape : argKw ++ ' ' :: k = (argKw ++ [' ']) ++ k := by simp
      rw [hshape]
      refine rev_dropWhile_append _ k hk (dropWhile_of_all_neg _ ?_)
      intro c hc
      exact hknw c (List.mem_reverse.mp hc)
  have hline : argKw ++ ' ' :: k = 'A' :: 'R' :: 'G' :: ' ' :: k := rfl
  rw [hline] at htrim ⊢
  simp only [stepLine, htrim, hblock, Bool.false_eq_true, if_false,
    envCapture_none_of_head 'A' _ (by decide),
    workdirCapture_none_of_head 'A' _ (by decide),
    runCapture_none_of_head 'A' _ (by decide),
    addCapture_none_AR,
    hline ▸ argCapture_no_default k hk hkc,
    readStdin, hstdin, henv]
  simp [trim]

/-- A single-line RUN (no trailing backslash) executes `bash -c` on the
expanded command in the tracked working directory; a non-zero exit stops
the interpreter. -/
theorem stepLine_run_single (execOk : Str → Str → Bool) (dfDir : Str)
    (s : InterpState) (c : Str) (hblock : s.inRunBlock = false)
    (hc : c ≠ []) (hch : c.dropWhile isWs = c)
    (hct : c.reverse.dropWhile isWs = c.reverse)
    (hbs : endsWithBS c = false) :
    stepLine execOk dfDir s (runKw ++ ' ' :: c) =
      (if execOk s.workdir (expand_vars c s.vars)
       then .next s [.exec s.workdir (expand_vars c s.vars)]
       else .fatalStop s [.exec s.workdir (expand_vars c s.vars)]) := by
  have htrim : trim (runKw ++ ' ' :: c) = runKw ++ ' ' :: c := by
    apply trim_eq_self
    · exact dropWhile_isWs_append_head runKw _ (by simp [runKw])
        (by rw [runKw, List.dropWhile_cons_of_neg (by simp [isWs])])
    · have hshape : runKw ++ ' ' :: c = (runKw ++ [' ']) ++ c := by simp
      rw [hshape]
      exact rev_dropWhile_append _ c hc hct
  have hline : runKw ++ ' ' :: c = 'R' :: 'U' :: 'N' :: ' ' :: c := rfl
  rw [hline] at htrim ⊢
  simp only [stepLine, htrim, hblock, Bool.false_eq_true, if_false,
    envCapture_none_of_head 'R' _ (by decide),
    workdirCapture_none_of_head 'R' _ (by decide),
    hline ▸ runCapture_line c hch, hbs]

/-- A RUN line ending with the continuation marker opens the pending
command buffer without executing anything. -/
theorem stepLine_run_open (execOk : Str → Str → Bool) (dfDir : Str)
    (s : InterpState) (c : Str) (hblock : s.inRunBlock = false)
    (hch : c.dropWhile isWs = c) :
    stepLine execOk dfDir s (runKw ++ ' ' :: (c ++ ['\\'])) =
      .next { s with runCommand := s.runCommand ++ c ++ [' '],
                     inRunBlock := true } [] := by
  have hch2 : (c ++ ['\\']).dropWhile isWs = c ++ ['\\'] := by
    match c with
    | [] => simp [isWs]
    | c0 :: crest =>
      exact dropWhile_isWs_append_head (c0 :: crest) _ (by simp) hch
  have htrim : trim (runKw ++ ' ' :: (c ++ ['\\'])) = runKw ++ ' ' :: (c ++ ['\\']) := by
    apply trim_eq_self
    · exact dropWhile_isWs_append_head runKw _ (by simp [runKw])
        (by rw [runKw, List.dropWhile_cons_of_neg (by simp [isWs])])
    · have hshape : runKw ++ ' ' :: (c ++ ['\\']) = (runKw ++ ' ' :: c) ++ ['\\'] := by simp
      rw [hshape]
      refine rev_dropWhile_append _ ['\\'] (by simp) ?_
      simp [isWs]
  have hline : runKw ++ ' ' :: (c ++ ['\\']) = 'R' :: 'U' :: 'N' :: ' ' :: (c ++ ['\\']) := rfl
  rw [hline] at htrim ⊢
  simp only [stepLine, htrim, hblock, Bool.false_eq_true, if_false,
    envCapture_none_of_head 'R' _ (by decide),
    workdirCapture_none_of_head 'R' _ (by decide),
    hline ▸ runCapture_line (c ++ ['\\']) hch2,
    endsWithBS_concat, stripBS_concat]
  simp

/-- WORKDIR: the path is expanded, an absolute result is taken as is,
otherwise it is joined onto the Dockerfile's directory; the directory is
created if absent and becomes the tracked working directory. -/
theorem stepLine_workdir (execOk : Str → Str → Bool) (dfDir : Str)
    (s : InterpState) (p : Str) (hblock : s.inRunBlock = false)
    (hp : p ≠ []) (hph : p.dropWhile isWs = p)
    (hpt : p.reverse.dropWhile isWs = p.reverse) :
    stepLine execOk dfDir s (workdirKw ++ ' ' :: p) =
      .next { s with workdir :=
                (if isAbsolutePath (expand_vars p s.vars) then expand_vars p s.vars
                 else pathJoin dfDir (expand_vars p s.vars)) }
        [.ensureDir (if isAbsolutePath (expand_vars p s.vars) then expand_vars p s.vars
                     else pathJoin dfDir (expand_vars p s.vars))] := by
  have htrim : trim (workdirKw ++ ' ' :: p) = workdirKw ++ ' ' :: p := by
    apply trim_eq_self
    · exact dropWhile_isWs_append_head workdirKw _ (by simp [workdirKw])
        (by rw [workdirKw, List.dropWhile_cons_of_neg (by simp [isWs])])
    · have hshape : workdirKw ++ ' ' :: p = (workdirKw ++ [' ']) ++ p := by simp
      rw [hshape]
      exact rev_dropWhile_append _ p hp hpt
  have hline : workdirKw ++ ' ' :: p =
      'W' :: 'O' :: 'R' :: 'K' :: 'D' :: 'I' :: 'R' :: ' ' :: p := rfl
  rw [hline] at htrim ⊢
  simp only [stepLine, htrim, hblock, Bool.false_eq_true, if_false,
    envCapture_none_of_head 'W' _ (by decide),
    hline ▸ workdirCapture_line p hp hph]

/-- While a continuation is open, a line ending with the marker is
appended to the buffer (marker stripped, space added), whatever it says. -/
theorem stepLine_inBlock_cont (execOk : Str → Str → Bool) (dfDir : Str)
    (s : InterpState) (line : Str) (hblock : s.inRunBlock = true)
    (hbs : endsWithBS (trim line) = true) :
    stepLine execOk dfDir s line =
      .next { s with runCommand := s.runCommand ++ stripBS (trim line) ++ [' '] } [] := by
  simp only [stepLine, hblock, if_true, hbs]

/-- While a continuation is open, a line not ending with the marker closes
the buffer and executes it as one RUN command. -/
theorem stepLine_inBlock_close (execOk : Str → Str → Bool) (dfDir : Str)
    (s : InterpState) (line : Str) (hblock : s.inRunBlock = true)
    (hbs : endsWithBS (trim line) = false) :
    stepLine execOk dfDir s line =
      (if execOk s.workdir (expand_vars (s.runCommand ++ trim line) s.vars)
       then .next { s with runCommand := [], inRunBlock := false }
              [.exec s.workdir (expand_vars (s.runCommand ++ trim line) s.vars)]
       else .fatalStop { s with runCommand := s.runCommand ++ trim line }
              [.exec s.workdir (expand_vars (s.runCommand ++ trim line) s.vars)]) := by
  simp only [stepLine, hblock, if_true, hbs, Bool.false_eq_true, if_false]

/-! ## Claim C1 -/

/-- Claim C1 (code_bug): the claim (and the repository's own test
`test_env_with_equals_syntax`) says `ENV <name>=<value>` is recognized and
stores a binding, but `env_re` demands whitespace between name and value,
so `ENV MY_VAR=hello_world` matches no instruction pattern at all and the
step leaves the state untouched; only the space-separated form is
recognized. -/
theorem C1_env_equals_form_ignored :
    envCapture (trim "ENV MY_VAR=hello_world".toList) = none ∧
    envCapture (trim "ENV MY_VAR hello_world".toList) =
      some ("MY_VAR".toList, "hello_world".toList) ∧
    stepLine (fun _ _ => true) "/tmp".toList (initState "/tmp".toList [] [])
        ("ENV MY_VAR=hello_world".toList) =
      .next (initState "/tmp".toList [] []) [] := by
  refine ⟨by decide, by decide, by decide⟩

/-! ## Claim C2 -/

/-- Claim C2 counterexample: the claim says an unbound reference is
replaced by the empty string, but `expand_vars` on `$FOO` under the empty
store returns `$FOO` unchanged, which is not the empty string. -/
theorem C2_counterexample :
    expand_vars "$FOO".toList [] = "$FOO".toList ∧
    expand_vars "$FOO".toList [] ≠ ([] : Str) := by
  refine ⟨by decide, by decide⟩

/-- Claim C2 (corrected): `expand_vars` leaves `$`-free text untouched
under every store and is the identity under the empty store (references to
unbound names are left in place, not emptied); a reference `$NAME` to a
bound name is replaced by its value, and so is `${NAME}` when the name
contains no `$` or `{`, provided the value introduces no further `$`. -/
theorem C2_expansion_behavior :
    (∀ (store : List (Str × Str)) (s : Str), '$' ∉ s → expand_vars s store = s) ∧
    (∀ s : Str, expand_vars s [] = s) ∧
    (∀ k v : Str, '$' ∉ v → expand_vars ('$' :: k) [(k, v)] = v) ∧
    (∀ k v : Str, k ≠ [] → '$' ∉ k → '{' ∉ k → '$' ∉ v →
      expand_vars ('$' :: '{' :: (k ++ ['}'])) [(k, v)] = v) :=
  ⟨expand_vars_no_dollar, expand_vars_nil, expand_vars_single_dollar,
    expand_vars_single_brace⟩

/-- Witness for C2: concrete instances of all four parts. -/
theorem C2_expansion_behavior_witness :
    expand_vars "hi".toList [("K".toList, "1".toList)] = "hi".toList ∧
    expand_vars "$K".toList [("K".toList, "1".toList)] = "1".toList ∧
    expand_vars "${K}".toList [("K".toList, "1".toList)] = "1".toList :=
  ⟨C2_expansion_behavior.1 _ _ (by decide),
   C2_expansion_behavior.2.2.1 "K".toList _ (by decide),
   C2_expansion_behavior.2.2.2 "K".toList _ (by decide) (by decide) (by decide) (by decide)⟩

/-! ## Claim C3 -/

/-- Claim C3 counterexample: for `ARG A=d` processed with exhausted stdin
(non-interactive) and a process environment binding `A=e`, the claim says
no prompt is issued and the environment value `e` wins; the code prompts
(a `promptArg` effect) and stores the literal default `d`. -/
theorem C3_counterexample :
    stepLine (fun _ _ => true) "/s".toList
        { vars := [], env := [("A".toList, "e".toList)], runCommand := [],
          inRunBlock := false, workdir := "/s".toList, stdin := [] }
        ("ARG A=d".toList) =
      .next { vars := [("A".toList, "d".toList)], env := [("A".toList, "e".toList)],
              runCommand := [], inRunBlock := false, workdir := "/s".toList, stdin := [] }
        [.promptArg "A".toList] ∧
    "d".toList ≠ "e".toList := by
  refine ⟨by decide, by decide⟩

/-- Claim C3 (corrected): `ARG <name>=<default>` always prints a prompt
(the `promptArg` effect) whether or not a terminal is attached; with an
empty (end-of-input) stdin response it resolves to the literal default.
The process environment is not consulted, even when it binds the name
(hypothesis `henv`). -/
theorem C3_arg_default_prompts_ignores_env (execOk : Str → Str → Bool) (dfDir : Str)
    (s : InterpState) (k d e : Str) (hblock : s.inRunBlock = false)
    (hstdin : s.stdin = []) (henv : varLookup k s.env = some e)
    (hk : k ≠ []) (hkc : ∀ c ∈ k, argNameChar c = true)
    (hd : d ≠ []) (hdh : d.dropWhile isWs = d)
    (hdt : d.reverse.dropWhile isWs = d.reverse) :
    stepLine execOk dfDir s (argKw ++ ' ' :: (k ++ '=' :: d)) =
      .next { s with vars := mapInsert k d s.vars } [.promptArg k] :=
  stepLine_arg_default_eof execOk dfDir s k d hblock hstdin hk hkc hd hdh hdt

/-- Witness for C3: concrete environment binding `B=envB`, default
`lit`. -/
theorem C3_arg_default_prompts_ignores_env_witness :
    stepLine (fun _ _ => true) "/s".toList
        { vars := [], env := [("B".toList, "envB".toList)], runCommand := [],
          inRunBlock := false, workdir := "/s".toList, stdin := [] }
        ("ARG B=lit".toList) =
      .next { vars := [("B".toList, "lit".toList)], env := [("B".toList, "envB".toList)],
              runCommand := [], inRunBlock := false, workdir := "/s".toList, stdin := [] }
        [.promptArg "B".toList] :=
  C3_arg_default_prompts_ignores_env _ _ _ "B".toList "lit".toList "envB".toList
    rfl rfl (by decide) (by decide) (by decide) (by decide) (by decide) (by decide)

/-! ## Claim C4 -/

/-- Claim C4 counterexample: processing `ARG P=7` with exhausted stdin
stores `P` in the Variable Store but leaves the process environment empty
(`env := []` in the result), while the claim says every resolved ARG name
is exported into the process environment. -/
theorem C4_counterexample :
    stepLine (fun _ _ => true) "/c".toList (initState "/c".toList [] [])
        ("ARG P=7".toList) =
      .next { vars := [(['P'], ['7'])], env := [], runCommand := [],
              inRunBlock := false, workdir := "/c".toList, stdin := [] }
        [.promptArg ['P']] := by
  decide

/-- Claim C4 (corrected): an ENV instruction records the binding both in
the Variable Store and in the process environment (`env::set_var`), but a
resolved ARG — whether its value comes from the literal default or from
the inherited environment — is recorded in the Variable Store only; the
`env` component of the state is unchanged, so nothing is exported. -/
theorem C4_env_exported_arg_not (execOk : Str → Str → Bool) (dfDir : Str)
    (s : InterpState) (hblock : s.inRunBlock = false) :
    (∀ k v : Str, k ≠ [] → (∀ c ∈ k, isWs c = false) → v ≠ [] →
      v.dropWhile isWs = v → v.reverse.dropWhile isWs = v.reverse →
      stepLine execOk dfDir s (envKw ++ ' ' :: (k ++ ' ' :: v)) =
        .next { s with vars := mapInsert k (expand_vars v s.vars) s.vars,
                       env := mapInsert k (expand_vars v s.vars) s.env }
          [.exportVar k (expand_vars v s.vars)]) ∧
    (∀ k d : Str, s.stdin = [] → k ≠ [] → (∀ c ∈ k, argNameChar c = true) → d ≠ [] →
      d.dropWhile isWs = d → d.reverse.dropWhile isWs = d.reverse →
      stepLine execOk dfDir s (argKw ++ ' ' :: (k ++ '=' :: d)) =
        .next { s with vars := mapInsert k d s.vars } [.promptArg k]) ∧
    (∀ k ev : Str, s.stdin = [] → varLookup k s.env = some ev → k ≠ [] →
      (∀ c ∈ k, argNameChar c = true) →
      stepLine execOk dfDir s (argKw ++ ' ' :: k) =
        .next { s with vars := mapInsert k ev s.vars } [.promptArg k]) :=
  ⟨fun k v hk hkc hv hvh hvt =>
      stepLine_env execOk dfDir s k v hblock hk hkc hv hvh hvt,
   fun k d hstdin hk hkc hd hdh hdt =>
      stepLine_arg_default_eof execOk dfDir s k d hblock hstdin hk hkc hd hdh hdt,
   fun k ev hstdin henv hk hkc =>
      stepLine_arg_no_default_env execOk dfDir s k ev hblock hstdin henv hk hkc⟩

/-- Witness for C4: an ENV step that exports and two ARG steps that do
not. -/
theorem C4_env_exported_arg_not_witness :
    stepLine (fun _ _ => true) "/c".toList (initState "/c".toList [] [])
        ("ENV K v1".toList) =
      .next { vars := [("K".toList, "v1".toList)], env := [("K".toList, "v1".toList)],
              runCommand := [], inRunBlock := false, workdir := "/c".toList, stdin := [] }
        [.exportVar "K".toList "v1".toList] ∧
    stepLine (fun _ _ => true) "/c".toList (initState "/c".toList [] [])
        ("ARG K=v2".toList) =
      .next { vars := [("K".toList, "v2".toList)], env := [], runCommand := [],
              inRunBlock := false, workdir := "/c".toList, stdin := [] }
        [.promptArg "K".toList] ∧
    stepLine (fun _ _ => true) "/c".toList
        (initState "/c".toList [("K".toList, "v3".toList)] [])
        ("ARG K".toList) =
      .next { vars := [("K".toList, "v3".toList)], env := [("K".toList, "v3".toList)],
              runCommand := [], inRunBlock := false, workdir := "/c".toList, stdin := [] }
        [.promptArg "K".toList] :=
  ⟨(C4_env_exported_arg_not (fun _ _ => true) "/c".toList _ rfl).1 "K".toList "v1".toList
      (by decide) (by decide) (by decide) (by decide) (by decide),
   (C4_env_exported_arg_not (fun _ _ => true) "/c".toList _ rfl).2.1 "K".toList "v2".toList
      rfl (by decide) (by decide) (by decide) (by decide) (by decide),
   (C4_env_exported_arg_not (fun _ _ => true) "/c".toList _ rfl).2.2 "K".toList "v3".toList
      rfl (by decide) (by decide) (by decide)⟩

/-! ## Claim C5 -/

/-- Claim C5 counterexample: with `AA` bound to the literal text `$B` and
`B` bound to `x`, expanding `$AA` yields `x`, not the literal `$B` the
claim requires — the text introduced by substituting `AA`'s value is
scanned again by `B`'s replacement pass. -/
theorem C5_counterexample :
    expand_vars "$AA".toList [("AA".toList, "$B".toList), ("B".toList, "x".toList)] =
      "x".toList ∧
    "x".toList ≠ "$B".toList := by
  constructor
  · show replaceL
        (replaceL
          (replaceL (replaceL ('$' :: "AA".toList) ('$' :: "AA".toList) "$B".toList)
            ('$' :: '{' :: ("AA".toList ++ ['}'])) "$B".toList)
          ('$' :: "B".toList) "x".toList)
        ('$' :: '{' :: ("B".toList ++ ['}'])) "x".toList = "x".toList
    rw [replaceL_self ('$' :: "AA".toList) "$B".toList (by simp)]
    rw [replaceL_of_occursB_eq_false "$B".toList ('$' :: '{' :: ("AA".toList ++ ['}']))
      "$B".toList (by decide)]
    rw [show "$B".toList = '$' :: "B".toList from rfl,
      replaceL_self ('$' :: "B".toList) "x".toList (by simp)]
    exact replaceL_dollar_of_not_mem _ _ _ (by decide)
  · decide

/-- Claim C5 (corrected): expansion performs one literal replacement pass
per bound name in decreasing name-length order, and each pass rescans the
whole intermediate result — including text introduced by earlier
substitutions.  With `AA ↦ $B` and `B ↦ v`, expanding `$AA` therefore
yields `B`'s value `v` (for any `$`-free `v`), not the literal `$B`. -/
theorem C5_substituted_text_rescanned (v : Str) (h : '$' ∉ v) :
    expand_vars "$AA".toList [("AA".toList, "$B".toList), ("B".toList, v)] = v := by
  show replaceL
      (replaceL
        (replaceL (replaceL ('$' :: "AA".toList) ('$' :: "AA".toList) "$B".toList)
          ('$' :: '{' :: ("AA".toList ++ ['}'])) "$B".toList)
        ('$' :: "B".toList) v)
      ('$' :: '{' :: ("B".toList ++ ['}'])) v = v
  rw [replaceL_self ('$' :: "AA".toList) "$B".toList (by simp)]
  rw [replaceL_of_occursB_eq_false "$B".toList ('$' :: '{' :: ("AA".toList ++ ['}']))
    "$B".toList (by decide)]
  rw [show "$B".toList = '$' :: "B".toList from rfl,
    replaceL_self ('$' :: "B".toList) v (by simp)]
  exact replaceL_dollar_of_not_mem v _ v h

/-- Witness for C5: the store `AA ↦ $B`, `B ↦ y`. -/
theorem C5_substituted_text_rescanned_witness :
    expand_vars "$AA".toList [("AA".toList, "$B".toList), ("B".toList, "y".toList)] =
      "y".toList :=
  C5_substituted_text_rescanned "y".toList (by decide)

/-! ## Claim C6 -/

/-- Claim C6 (confirmed): when the external execution of a single-line
RUN command reports failure, the interpreter exits with code 1 at once:
whatever lines follow (`rest` is universally quantified), no further
effect is produced, no state change happens, and the effect trace ends
with the failed `exec`. -/
theorem C6_run_failure_stops (execOk : Str → Str → Bool) (dfDir : Str)
    (s : InterpState) (effs : List Effect) (c : Str) (rest : List Str)
    (hblock : s.inRunBlock = false)
    (hc : c ≠ []) (hch : c.dropWhile isWs = c)
    (hct : c.reverse.dropWhile isWs = c.reverse)
    (hbs : endsWithBS c = false)
    (hfail : execOk s.workdir (expand_vars c s.vars) = false) :
    runScript execOk dfDir ((runKw ++ ' ' :: c) :: rest) s effs =
      (.fatalExit 1, s, effs ++ [.exec s.workdir (expand_vars c s.vars)]) := by
  have hstep := stepLine_run_single execOk dfDir s c hblock hc hch hct hbs
  rw [if_neg (by simp [hfail])] at hstep
  simp only [runScript, hstep]

/-- Witness for C6: `RUN false` followed by another RUN; the run exits
fatally having only attempted the failing command. -/
theorem C6_run_failure_stops_witness :
    runScript (fun _ _ => false) "/w".toList
        ["RUN false".toList, "RUN echo x".toList] (initState "/w".toList [] []) [] =
      (.fatalExit 1, initState "/w".toList [] [],
        [.exec "/w".toList "false".toList]) :=
  C6_run_failure_stops (fun _ _ => false) "/w".toList _ [] "false".toList
    ["RUN echo x".toList] rfl (by decide) (by decide) (by decide) (by decide) rfl

/-! ## Claim C7 -/

/-- Claim C7 counterexample: a script whose only line opens a continuation
(`RUN echo a \`) ends with exit status OK and an empty effect trace — the
buffered partial command is silently dropped, not surfaced as a fatal
parse error as the claim requires. -/
theorem C7_counterexample :
    runScript (fun _ _ => true) "/w".toList ["RUN echo a \\".toList]
        (initState "/w".toList [] []) [] =
      (.ok,
        { vars := [], env := [], runCommand := "echo a  ".toList, inRunBlock := true,
          workdir := "/w".toList, stdin := [] },
        []) := by
  decide

/-- Claim C7 (corrected): when input ends while a continuation is open,
the interpreter exits successfully (`.ok`, process exit code 0); the
buffered partial command stays in the buffer, is never executed, and no
error of any kind is reported (the effect trace is unchanged). -/
theorem C7_unterminated_silently_dropped (execOk : Str → Str → Bool) (dfDir : Str)
    (s : InterpState) (effs : List Effect) (c : Str)
    (hblock : s.inRunBlock = false) (hch : c.dropWhile isWs = c) :
    runScript execOk dfDir [runKw ++ ' ' :: (c ++ ['\\'])] s effs =
      (.ok, { s with runCommand := s.runCommand ++ c ++ [' '], inRunBlock := true },
        effs) := by
  have hstep := stepLine_run_open execOk dfDir s c hblock hch
  simp only [runScript, hstep, List.append_nil]

/-- Witness for C7: a one-line unterminated continuation script. -/
theorem C7_unterminated_silently_dropped_witness :
    runScript (fun _ _ => true) "/u".toList ["RUN make \\".toList]
        (initState "/u".toList [] []) [] =
      (.ok,
        { vars := [], env := [], runCommand := "make  ".toList, inRunBlock := true,
          workdir := "/u".toList, stdin := [] },
        []) :=
  C7_unterminated_silently_dropped (fun _ _ => true) "/u".toList _ [] "make ".toList
    rfl (by decide)

/-! ## Claim C8 -/

/-- Claim C8 (confirmed): while a continuation is open, every incoming
line — whatever its content, ENV/WORKDIR/ARG lookalikes, comments and
blanks included, since `line` is universally quantified — is appended to
the buffer: marker-ending lines are stripped of the marker and joined
with a space, and the first line without the marker is appended as is,
closes the continuation, and the whole buffer is executed as one RUN
command. -/
theorem C8_continuation_invariant (execOk : Str → Str → Bool) (dfDir : Str)
    (s : InterpState) (line : Str) (hblock : s.inRunBlock = true) :
    (endsWithBS (trim line) = true →
      stepLine execOk dfDir s line =
        .next { s with runCommand := s.runCommand ++ stripBS (trim line) ++ [' '] } []) ∧
    (endsWithBS (trim line) = false →
      stepLine execOk dfDir s line =
        (if execOk s.workdir (expand_vars (s.runCommand ++ trim line) s.vars)
         then .next { s with runCommand := [], inRunBlock := false }
                [.exec s.workdir (expand_vars (s.runCommand ++ trim line) s.vars)]
         else .fatalStop { s with runCommand := s.runCommand ++ trim line }
                [.exec s.workdir (expand_vars (s.runCommand ++ trim line) s.vars)])) :=
  ⟨fun hbs => stepLine_inBlock_cont execOk dfDir s line hblock hbs,
   fun hbs => stepLine_inBlock_close execOk dfDir s line hblock hbs⟩

/-- Witness for C8: an open continuation swallows an ENV-lookalike line
ending with the marker instead of classifying it. -/
theorem C8_continuation_invariant_witness :
    stepLine (fun _ _ => true) "/w".toList
        { vars := [], env := [], runCommand := "echo a ".toList, inRunBlock := true,
          workdir := "/w".toList, stdin := [] }
        ("ENV X=1 \\".toList) =
      .next { vars := [], env := [], runCommand := "echo a ENV X=1  ".toList,
              inRunBlock := true, workdir := "/w".toList, stdin := [] } [] :=
  (C8_continuation_invariant (fun _ _ => true) "/w".toList _ _ rfl).1 (by decide)

/-! ## Claim C9 -/

/-- Claim C9 (confirmed): `WORKDIR <path>` expands variables in the path;
an absolute result becomes the tracked working directory, a relative one
is joined onto the directory containing the script file (`dfDir`), not
the current working directory; the directory is created if absent
(`ensureDir` effect); and every `exec` effect any step ever emits runs in
the tracked working directory of its state. -/
theorem C9_workdir_semantics (execOk : Str → Str → Bool) (dfDir : Str) :
    (∀ (s : InterpState) (p : Str), s.inRunBlock = false → p ≠ [] →
      p.dropWhile isWs = p → p.reverse.dropWhile isWs = p.reverse →
      stepLine execOk dfDir s (workdirKw ++ ' ' :: p) =
        .next { s with workdir :=
                  (if isAbsolutePath (expand_vars p s.vars) then expand_vars p s.vars
                   else pathJoin dfDir (expand_vars p s.vars)) }
          [.ensureDir (if isAbsolutePath (expand_vars p s.vars) then expand_vars p s.vars
                       else pathJoin dfDir (expand_vars p s.vars))]) ∧
    (∀ (s : InterpState) (line cwd cmd : Str),
      Effect.exec cwd cmd ∈ stepEffects (stepLine execOk dfDir s line) →
      cwd = s.workdir) := by
  constructor
  · intro s p hblock hp hph hpt
    exact stepLine_workdir execOk dfDir s p hblock hp hph hpt
  · intro s line cwd cmd hmem
    simp only [stepLine] at hmem
    repeat' split at hmem
    all_goals simp_all [stepEffects]

/-- Witness for C9: a relative WORKDIR joined onto the script directory,
and a RUN whose exec effect is in the tracked directory. -/
theorem C9_workdir_semantics_witness :
    (stepLine (fun _ _ => true) "/base".toList (initState "/base".toList [] [])
        ("WORKDIR sub".toList) =
      .next { vars := [], env := [], runCommand := [], inRunBlock := false,
              workdir := "/base/sub".toList, stdin := [] }
        [.ensureDir "/base/sub".toList]) ∧
    "/base".toList = (initState "/base".toList [] []).workdir :=
  ⟨(C9_workdir_semantics (fun _ _ => true) "/base".toList).1 _ "sub".toList rfl
      (by decide) (by decide) (by decide),
   (C9_workdir_semantics (fun _ _ => true) "/base".toList).2
      (initState "/base".toList [] []) "RUN pwd".toList "/base".toList "pwd".toList
      (by decide)⟩

/-! ## Claim C10 -/

/-- Claim C10 (confirmed): the value an `ARG <name>=<default>` stores —
the literal default on an empty response, or the trimmed nonblank
response — is stored exactly as written, with no variable expansion: the
resulting store is `mapInsert k d s.vars` for every store `s.vars`, so
`ARG A=$B` binds `A` to the literal text `$B` even when `B` is bound. -/
theorem C10_arg_literal_storage (execOk : Str → Str → Bool) (dfDir : Str)
    (s : InterpState) (k d : Str) (hblock : s.inRunBlock = false)
    (hk : k ≠ []) (hkc : ∀ c ∈ k, argNameChar c = true)
    (hd : d ≠ []) (hdh : d.dropWhile isWs = d)
    (hdt : d.reverse.dropWhile isWs = d.reverse) :
    (s.stdin = [] →
      stepLine execOk dfDir s (argKw ++ ' ' :: (k ++ '=' :: d)) =
        .next { s with vars := mapInsert k d s.vars } [.promptArg k]) ∧
    (∀ (i : Str) (tl : List Str), s.stdin = i :: tl → trim i ≠ [] →
      stepLine execOk dfDir s (argKw ++ ' ' :: (k ++ '=' :: d)) =
        .next { s with stdin := tl, vars := mapInsert k (trim i) s.vars }
          [.promptArg k]) :=
  ⟨fun hstdin =>
      stepLine_arg_default_eof execOk dfDir s k d hblock hstdin hk hkc hd hdh hdt,
   fun i tl hstdin hi =>
      stepLine_arg_default_input execOk dfDir s k d i tl hblock hstdin hi hk hkc hd hdh hdt⟩

/-- Witness for C10: `ARG A=$B` with `B` already bound to `x` stores the
literal `$B`, unexpanded. -/
theorem C10_arg_literal_storage_witness :
    stepLine (fun _ _ => true) "/w".toList
        { vars := [("B".toList, "x".toList)], env := [], runCommand := [],
          inRunBlock := false, workdir := "/w".toList, stdin := [] }
        ("ARG A=$B".toList) =
      .next { vars := [("B".toList, "x".toList), ("A".toList, "$B".toList)], env := [],
              runCommand := [], inRunBlock := false, workdir := "/w".toList, stdin := [] }
        [.promptArg "A".toList] :=
  (C10_arg_literal_storage (fun _ _ => true) "/w".toList _ "A".toList "$B".toList
    rfl (by decide) (by decide) (by decide) (by decide) (by decide)).1 rfl

end Dfrun
